import Mathlib

/-!
Verification of the dirt coverage simulation core of the `washer` repository.

The development shallowly embeds, over exact rational arithmetic:
  * `src/services/RNG.ts` (mulberry32-style PRNG),
  * `src/systems/DirtSystem.ts` (coverage-map engine, thickness init),
  * the threshold-strategy `DirtSystem.init` variant,
  * `src/systems/StrokeSystem.ts` (stroke-to-stamp converter),
  * `SilhouetteClip.buildMask` (alpha thresholding).

Modelling conventions:
  * JavaScript doubles are modelled by `ℚ`; `Float32Array` cells by `List ℚ`
    (reads out of range yield the default 0, exactly like `arr[i] ?? 0`;
    writes out of range are silent no-ops, exactly like typed-array stores).
  * `Math.sqrt` returns an irrational real in general, which `ℚ` cannot hold;
    every operation that calls it is parameterised by a square-root oracle
    `sqrtQ : ℚ → ℚ`.  No settled property depends on the oracle's values
    (the stamp's falloff clamps its input to `[0,1]` first), and theorems
    quantify over the oracle.
  * The PRNG state is a JS number that only ever grows by a fixed increment;
    it is modelled by an exact `ℕ` (exact in JS up to 2^53, far beyond any
    in-game draw count).  Bitwise steps operate on the value mod 2^32 exactly
    as JS `ToInt32`/`ToUint32`/`Math.imul` do on bit patterns.
-/

/-- One `RNG.next()` step (`src/services/RNG.ts`): the stored state grows by
the constant `0x6d2b79f5`; the output mixes the new state's low 32 bits with
xor-shift-multiply steps (`Math.imul` is multiplication mod 2^32 on bit
patterns, `x | 1` and `x | 61` are bitwise or, `>>>` is logical shift).
Returns `(new state, unsigned 32-bit output)`. -/
def rngNext (state : ℕ) : ℕ × ℕ :=
  let s1 := state + 0x6d2b79f5
  let t := s1 % 2 ^ 32
  let a1 := ((t ^^^ (t >>> 15)) * (t ||| 1)) % 2 ^ 32
  let a2 := ((a1 ^^^ (a1 >>> 7)) * (a1 ||| 61)) % 2 ^ 32
  let a3 := (a1 + a2) % 2 ^ 32
  let a4 := a1 ^^^ a3
  (s1, a4 ^^^ (a4 >>> 14))

/-- `RNG` constructor: the seed is truncated to 32 bits (`seed >>> 0`), and a
zero seed is remapped to the fixed nonzero constant `0x6d2b79f5`. -/
def rngSeedState (seed : ℕ) : ℕ :=
  let s := seed % 2 ^ 32
  if s = 0 then 0x6d2b79f5 else s

/-- `RNG.float()`: `next() / 2^32 ∈ [0,1)` (exact: the numerator is below
`2^32` and division by a power of two is exact in doubles). -/
def rngFloatOut (state : ℕ) : ℚ := ((rngNext state).2 : ℚ) / (2 ^ 32 : ℚ)

/-- State after `k` calls of `next()`: each call adds the fixed increment. -/
def rngAdvance (state k : ℕ) : ℕ := state + k * 0x6d2b79f5

/-- The `j`-th (0-based) output of `float()` drawn from `state`: the `j+1`-st
call of `next()` acts on the state after `j` increments. -/
def floatAt (state j : ℕ) : ℚ := rngFloatOut (rngAdvance state j)

/-- First `n` outputs of `next()` starting from `state`. -/
def rngOutputs : ℕ → ℕ → List ℕ
  | 0, _ => []
  | n + 1, st =>
    let p := rngNext st
    p.2 :: rngOutputs n p.1

/-- The two dirt layer ids (`src/types/config.ts`: `'mold' | 'grease'`). -/
inductive DirtLayerId where
  | mold
  | grease
deriving DecidableEq

/-- Per-layer static configuration (`DirtLayerConfig`); the debug colour is
irrelevant to the engine and omitted. -/
structure DirtLayerConfig where
  id : DirtLayerId
  eraseRate : ℚ
  baseRadius : ℚ
deriving DecidableEq

/-- The coverage-map engine state (`DirtSystem` fields): grid dimension,
layer configuration list, silhouette mask (bytes, referenced not copied) and
the layer-id-keyed table of coverage grids.  The table is a `Map` keyed by
the two-valued `DirtLayerId`, hence one optional grid per id. -/
structure DirtState where
  size : ℕ
  layers : List DirtLayerConfig
  mask : List ℕ
  mapMold : Option (List ℚ)
  mapGrease : Option (List ℚ)
deriving DecidableEq

/-- Table lookup `this.maps.get(id)`. -/
def mapEntry (s : DirtState) : DirtLayerId → Option (List ℚ)
  | .mold => s.mapMold
  | .grease => s.mapGrease

/-- Table store `this.maps.set(id, g)`. -/
def setMapEntry (s : DirtState) (id : DirtLayerId) (g : List ℚ) : DirtState :=
  match id with
  | .mold => { s with mapMold := some g }
  | .grease => { s with mapGrease := some g }

/-- Value-level `ensureMap(id)`: the stored grid, or a fresh zero grid when
the entry is absent.  (`ensureMap` also inserts the fresh grid into the
table; that insertion is observable only through later reads of the same
entry, which this function reproduces, so queries need no state change.) -/
def getMapGrid (s : DirtState) (id : DirtLayerId) : List ℚ :=
  (mapEntry s id).getD (List.replicate (s.size * s.size) 0)

/-- `getMap(id)`: direct access to a layer's grid via `ensureMap`. -/
def getMap (s : DirtState) (id : DirtLayerId) : List ℚ := getMapGrid s id

/-- `getMapsForShader()`: the grid size and both layer grids. -/
def getMapsForShader (s : DirtState) : ℕ × List ℚ × List ℚ :=
  (s.size, getMapGrid s .mold, getMapGrid s .grease)

/-- `ensureMap`'s table effect for one id: insert a zero grid when absent. -/
def ensureEntry (s : DirtState) (id : DirtLayerId) : DirtState :=
  match mapEntry s id with
  | some _ => s
  | none => setMapEntry s id (List.replicate (s.size * s.size) 0)

/-- The constructor / init epilogue that guarantees both `'mold'` and
`'grease'` entries exist. -/
def ensureBothEntries (s : DirtState) : DirtState :=
  ensureEntry (ensureEntry s .mold) .grease

/-- Number of inside-cells, counted in the constructor:
cells with `mask[i] === 1`. -/
def insideCount (mask : List ℕ) : ℕ :=
  mask.countP (fun m => m == 1)

/-- The `DirtSystem` constructor: store size, layers and mask, create a zero
grid per configured layer, then guarantee both `'mold'` and `'grease'`
entries exist. -/
def mkDirtSystem (size : ℕ) (layers : List DirtLayerConfig) (mask : List ℕ) :
    DirtState :=
  let base : DirtState :=
    { size := size, layers := layers, mask := mask
      mapMold := none, mapGrease := none }
  let s1 := layers.foldl
    (fun st l => setMapEntry st l.id (List.replicate (size * size) 0)) base
  ensureBothEntries s1

/-- Coordinate clamp used by the box blur (`clampCoordinate`): clamp an
integer coordinate into `[0, size-1]`. -/
def clampCoord (size : ℕ) (v : ℤ) : ℕ :=
  if v < 0 then 0 else if (size : ℤ) ≤ v then size - 1 else v.toNat

/-- Horizontal box-blur pass on a flat `size × size` field: each cell becomes
the mean of the 5-cell row window centred on it, with column indices clamped
to the row (`applyBoxBlur`, first loop).  The source's sliding running sum
computes exactly these window sums in exact arithmetic. -/
def blurH (size : ℕ) (f : ℕ → ℚ) : ℕ → ℚ := fun idx =>
  let y := idx / size
  let x := idx % size
  (((List.range 5).map
    (fun k => f (y * size + clampCoord size ((x : ℤ) - 2 + k)))).sum) / 5

/-- Vertical box-blur pass (`applyBoxBlur`, second loop): mean of the 5-cell
column window with row indices clamped. -/
def blurV (size : ℕ) (f : ℕ → ℚ) : ℕ → ℚ := fun idx =>
  let y := idx / size
  let x := idx % size
  (((List.range 5).map
    (fun k => f (clampCoord size ((y : ℤ) - 2 + k) * size + x))).sum) / 5

/-- `applyBoxBlur`: horizontal pass into the temp buffer, then vertical pass
back into the buffer. -/
def applyBoxBlur (size : ℕ) (f : ℕ → ℚ) : ℕ → ℚ :=
  blurV size (blurH size f)

/-- Thickness-strategy noise (`DirtSystem.init`, `src/systems/DirtSystem.ts`):
three fields drawn interleaved per pixel (large = draw `3i`, medium = `3i+1`,
small = `3i+2`), the large field blurred twice, the medium once, the small
not at all, combined with weights 0.4 / 0.3 / 0.3. -/
def combinedNoise (size rngSt : ℕ) : ℕ → ℚ := fun i =>
  (2 / 5) * applyBoxBlur size (applyBoxBlur size (fun j => floatAt rngSt (3 * j))) i +
  (3 / 10) * applyBoxBlur size (fun j => floatAt rngSt (3 * j + 1)) i +
  (3 / 10) * (fun j => floatAt rngSt (3 * j + 2)) i

/-- The grid written by one thickness-strategy init iteration: inside-cells
get `noise * target`, all other cells 0 (the loop writes every index below
`size*size`). -/
def thicknessGrid (size : ℕ) (mask : List ℕ) (rngSt : ℕ) (target : ℚ) :
    List ℚ :=
  (List.range (size * size)).map (fun i =>
    if mask.getD i 0 = 1 then combinedNoise size rngSt i * target else 0)

/-- `DirtSystem.init(rng, coverage)` (thickness strategy, the version in
`src/systems/DirtSystem.ts`): for each configured layer clamp the requested
target into `[0,1]`; fill the layer with zeros when the target is
non-positive or there are no inside-cells (drawing nothing from the RNG),
otherwise draw `3·size²` floats and write the combined-noise thickness grid;
finally guarantee both `'mold'`/`'grease'` entries exist.  The console
statistics log has no state effect and is omitted. -/
def dirtInit (s : DirtState) (rngSt : ℕ) (cov : DirtLayerId → ℚ) : DirtState :=
  let total := s.size * s.size
  let result := s.layers.foldl
    (fun (acc : DirtState × ℕ) layer =>
      let target := min 1 (max 0 (cov layer.id))
      if target ≤ 0 ∨ insideCount acc.1.mask = 0 then
        (setMapEntry acc.1 layer.id (List.replicate total 0), acc.2)
      else
        (setMapEntry acc.1 layer.id
          (thicknessGrid acc.1.size acc.1.mask acc.2 target),
         rngAdvance acc.2 (3 * total)))
    (s, rngSt)
  ensureBothEntries result.1

/-- `coverageRatio(values, threshold)` (threshold-variant `DirtSystem`):
fraction of inside-cells whose noise value is at least the threshold. -/
def coverageRatioAt (size : ℕ) (mask : List ℕ) (vals : ℕ → ℚ) (thr : ℚ) : ℚ :=
  if insideCount mask = 0 then 0
  else
    (((List.range (size * size)).countP
      (fun i => decide (mask.getD i 0 = 1) && decide (thr ≤ vals i))) : ℚ) /
      (insideCount mask : ℚ)

/-- `findThreshold(values, target)` (threshold-variant `DirtSystem`): 12-step
binary search for the threshold whose coverage ratio approximates the
target; full target keeps everything, empty target keeps nothing. -/
def findThreshold (size : ℕ) (mask : List ℕ) (vals : ℕ → ℚ) (target : ℚ) :
    ℚ :=
  if 1 ≤ target then 0
  else if target ≤ 0 ∨ insideCount mask = 0 then 1
  else
    let p := (List.range 12).foldl
      (fun (lh : ℚ × ℚ) _ =>
        let mid := (lh.1 + lh.2) / 2
        if target < coverageRatioAt size mask vals mid then (mid, lh.2)
        else (lh.1, mid))
      (0, 1)
    (p.1 + p.2) / 2

/-- The binary grid written by one threshold-strategy init iteration: 1 for
inside-cells whose blurred noise reaches the found threshold, else 0. -/
def thresholdGrid (size : ℕ) (mask : List ℕ) (rngSt : ℕ) (target : ℚ) :
    List ℚ :=
  let vals := applyBoxBlur size (fun j => floatAt rngSt j)
  let thr := findThreshold size mask vals target
  (List.range (size * size)).map (fun i =>
    if mask.getD i 0 = 1 ∧ thr ≤ vals i then 1 else 0)

/-- The threshold-variant `DirtSystem.init`: per layer draw `size²` floats,
blur once, binary-search the threshold, write the binary grid; the zero-fill
guard and the final ensure-both epilogue are as in the thickness variant. -/
def dirtInitThreshold (s : DirtState) (rngSt : ℕ) (cov : DirtLayerId → ℚ) :
    DirtState :=
  let total := s.size * s.size
  let result := s.layers.foldl
    (fun (acc : DirtState × ℕ) layer =>
      let target := min 1 (max 0 (cov layer.id))
      if target ≤ 0 ∨ insideCount acc.1.mask = 0 then
        (setMapEntry acc.1 layer.id (List.replicate total 0), acc.2)
      else
        (setMapEntry acc.1 layer.id
          (thresholdGrid acc.1.size acc.1.mask acc.2 target),
         rngAdvance acc.2 total))
    (s, rngSt)
  ensureBothEntries result.1

/-- Generic form of the per-layer init loop body, abstracting over the grid
builder `B` and the RNG advance `A`; both init strategies instantiate it. -/
def initStepFn (s : DirtState) (cov : DirtLayerId → ℚ)
    (B : DirtState → ℕ → DirtLayerConfig → List ℚ) (A : ℕ → ℕ) :
    DirtState × ℕ → DirtLayerConfig → DirtState × ℕ := fun acc layer =>
  if min 1 (max 0 (cov layer.id)) ≤ 0 ∨ insideCount acc.1.mask = 0 then
    (setMapEntry acc.1 layer.id (List.replicate (s.size * s.size) 0), acc.2)
  else (setMapEntry acc.1 layer.id (B acc.1 acc.2 layer), A acc.2)

/-- `clamp01` (`DirtSystem`): clamp into `[0,1]`; the `NaN → 0` branch has no
rational counterpart (`ℚ` has no NaN). -/
def clamp01 (q : ℚ) : ℚ :=
  if q ≤ 0 then 0 else if 1 ≤ q then 1 else q

/-- `softFalloff(distanceRatio)`: clamp the ratio into `[0,1]`; 0 at or past
the radius edge, else the squared inverse `(1 - r)²`. -/
def softFalloff (r : ℚ) : ℚ :=
  let c := min 1 (max 0 r)
  if 1 ≤ c then 0 else (1 - c) * (1 - c)

/-- The body of the stamp's double loop for one candidate cell `(x, y)`
(kept in `ℤ`, matching the JS loop counters): skip cells outside the true
Euclidean radius, outside the silhouette, or with vanishing falloff;
otherwise subtract `falloff · strength · eraseRate`, clamped at 0. -/
def stampCell (sqrtQ : ℚ → ℚ) (size : ℕ) (mask : List ℕ)
    (cX cY : ℤ) (strength eraseRate radius : ℚ)
    (g : List ℚ) (c : ℤ × ℤ) : List ℚ :=
  let dx := c.1 - cX
  let dy := c.2 - cY
  let distSq := dx * dx + dy * dy
  if radius * radius < (distSq : ℚ) then g
  else
    let index := (c.2 * size + c.1).toNat
    if mask.getD index 0 = 0 then g
    else
      let distance := sqrtQ (distSq : ℚ)
      if radius ≤ distance then g
      else
        let falloff := softFalloff (distance / radius)
        if falloff ≤ 0 then g
        else
          let delta := falloff * strength * eraseRate
          let current := g.getD index 0
          let next := current - delta
          g.set index (if 0 < next then next else 0)

/-- The per-layer stamp loop: clamp the bounding box of the radius around
the centre to the grid (row-major, y outer / x inner) and apply the cell
body to every candidate cell. -/
def stampLayer (sqrtQ : ℚ → ℚ) (size : ℕ) (mask : List ℕ)
    (cX cY : ℤ) (strength eraseRate radius : ℚ) (g : List ℚ) : List ℚ :=
  let minX := max 0 ⌊(cX : ℚ) - radius⌋
  let maxX := min ((size : ℤ) - 1) ⌈(cX : ℚ) + radius⌉
  let minY := max 0 ⌊(cY : ℚ) - radius⌋
  let maxY := min ((size : ℤ) - 1) ⌈(cY : ℚ) + radius⌉
  let cells := (List.range (maxY + 1 - minY).toNat).flatMap
    (fun j => (List.range (maxX + 1 - minX).toNat).map
      (fun i => (minX + i, minY + j)))
  cells.foldl (stampCell sqrtQ size mask cX cY strength eraseRate radius) g

/-- `DirtSystem.applyStampUV(u, v, strength, radiusFactor)`: no-op for
non-positive strength; otherwise map the clamped UV to the nearest cell,
floor-protect the radius factor at 0.2, and erode every configured layer
inside its effective radius `max 1 (10 · baseRadius · radiusFactor)`
(`BASE_RADIUS_PX = 10`). -/
def applyStampUV (sqrtQ : ℚ → ℚ) (s : DirtState)
    (u v strength radiusFactor : ℚ) : DirtState :=
  if strength ≤ 0 then s
  else
    let size := s.size
    let cX : ℤ := min ((size : ℤ) - 1) ⌊clamp01 u * (size : ℚ)⌋
    let cY : ℤ := min ((size : ℤ) - 1) ⌊clamp01 v * (size : ℚ)⌋
    let safeRadiusFactor := max (1 / 5) radiusFactor
    s.layers.foldl
      (fun st layer =>
        let radius := max 1 (10 * layer.baseRadius * safeRadiusFactor)
        setMapEntry st layer.id
          (stampLayer sqrtQ size s.mask cX cY strength layer.eraseRate radius
            (getMapGrid st layer.id)))
      s

/-- `getUnionDirtyRatio(eps)`: 0 when there are no inside-cells; otherwise
the fraction of mask positions that are inside (`mask[i] !== 0`) and have
`mold` or `grease` coverage strictly above `eps`, over the inside count. -/
def getUnionDirtyRatio (s : DirtState) (eps : ℚ) : ℚ :=
  if insideCount s.mask = 0 then 0
  else
    let map0 := getMapGrid s .mold
    let map1 := getMapGrid s .grease
    let dirty := (List.range s.mask.length).countP
      (fun i => (s.mask.getD i 0 != 0) &&
        (decide (eps < map0.getD i 0) || decide (eps < map1.getD i 0)))
    (dirty : ℚ) / (insideCount s.mask : ℚ)

/-- The union dirty count as the spec words it: the number of inside-cells
(`mask[i] == 1`) for which some layer's coverage strictly exceeds `eps`. -/
def specUnionDirtyCount (s : DirtState) (eps : ℚ) : ℕ :=
  (List.range s.mask.length).countP (fun i =>
    decide (s.mask.getD i 0 = 1) &&
    decide (eps < (getMapGrid s DirtLayerId.mold).getD i 0 ∨
            eps < (getMapGrid s DirtLayerId.grease).getD i 0))

/-- Engine states reachable through the public mutating API: construction,
either init strategy (with any RNG state and target record), and stamping
(with any UV/strength/radius arguments and any square-root oracle). -/
inductive ReachableDirt : DirtState → Prop where
  | base (size : ℕ) (layers : List DirtLayerConfig) (mask : List ℕ) :
      ReachableDirt (mkDirtSystem size layers mask)
  | initStep (s : DirtState) (rngSt : ℕ) (cov : DirtLayerId → ℚ) :
      ReachableDirt s → ReachableDirt (dirtInit s rngSt cov)
  | initThresholdStep (s : DirtState) (rngSt : ℕ) (cov : DirtLayerId → ℚ) :
      ReachableDirt s → ReachableDirt (dirtInitThreshold s rngSt cov)
  | stampStep (s : DirtState) (sqrtQ : ℚ → ℚ) (u v strength radiusFactor : ℚ) :
      ReachableDirt s →
      ReachableDirt (applyStampUV sqrtQ s u v strength radiusFactor)

/-- `SilhouetteClip.buildMask` after rasterisation: given the `N·N` list of
sampled 8-bit alpha values, a cell is marked inside exactly when its alpha
reaches `Math.floor(alphaThreshold * 255)`. -/
def buildMask (alphas : List ℕ) (alphaThreshold : ℚ) : List ℕ :=
  let threshold : ℤ := ⌊alphaThreshold * 255⌋
  alphas.map (fun a : ℕ => if threshold ≤ (a : ℤ) then 1 else 0)

/-- The arguments of one `placeStamp` invocation (`StrokeSystem`): position,
travelled distance and elapsed time for this stamp, and the direction
vector.  The stamp's downstream effect (jitter draw, speed boost, the
`applyStampUV` call) consumes these arguments; the stroke claims concern
the number and positions of placements, so placements are recorded. -/
structure StampCall where
  x : ℚ
  y : ℚ
  distance : ℚ
  dtMs : ℚ
  dirX : ℚ
  dirY : ℚ
deriving DecidableEq

/-- The stroke converter's per-instance state (`StrokeSystem` fields). -/
structure StrokeState where
  active : Bool
  lastX : ℚ
  lastY : ℚ
  lastT : ℚ
  residual : ℚ
  stamped : Bool
  lastDirX : ℚ
  lastDirY : ℚ
deriving DecidableEq

/-- The stroke-relevant part of `ToolConfig`. -/
structure ToolConfig where
  spacing : ℚ
  jitter : ℚ
  strength : ℚ
  speedBoost : Bool
deriving DecidableEq

/-- `StrokeSystem.handleDown(x, y, t)`: record the down point and time,
reset the residual and the direction to the default up vector, and place
one anchor stamp at the start point (distance 0). -/
def handleDown (st : StrokeState) (x y t : ℚ) : StrokeState × List StampCall :=
  ({ st with lastX := x, lastY := y, lastT := t, residual := 0
             lastDirX := 0, lastDirY := -1, stamped := true },
   [⟨x, y, 0, 0, 0, -1⟩])

/-- The `while` loop of `handleMove`: as long as the residual plus the
untravelled part of the segment reaches the spacing (and the segment is
nonempty), walk `spacing - residual` forward, stamp at the interpolated
point (`Phaser.Math.Linear` with the clamped ratio), and zero the residual.
The loop is written with an explicit recursion bound; `handleMove` supplies
a bound large enough that it is never the reason the loop stops (each
iteration past the first advances by `spacing ≥ 1`).  Returns the emitted
stamps, the final travelled distance and the final residual. -/
def moveLoop (spacing dist dt lx ly x y dirX dirY : ℚ) :
    ℕ → ℚ → ℚ → List StampCall × ℚ × ℚ
  | 0, residual, travelled => ([], travelled, residual)
  | fuel + 1, residual, travelled =>
    if spacing ≤ residual + (dist - travelled) ∧ 0 < dist then
      let needed := spacing - residual
      let travelled2 := travelled + needed
      let ratio := max 0 (min 1 (travelled2 / dist))
      let sx := lx + (x - lx) * ratio
      let sy := ly + (y - ly) * ratio
      let stampDt := dt * (needed / max dist spacing)
      let rest := moveLoop spacing dist dt lx ly x y dirX dirY fuel 0 travelled2
      (⟨sx, sy, needed, stampDt, dirX, dirY⟩ :: rest.1, rest.2)
    else ([], travelled, residual)

/-- `StrokeSystem.handleMove(x, y, t)`: ignored while inactive; otherwise
clamp the residual to the spacing, run the stamping loop along the segment
from the last point, carry the leftover distance as the new residual, update
the last point and time, keep the previous direction on zero-length
segments, and place one extra stamp on zero-distance samples with positive
elapsed time. -/
def handleMove (tool : ToolConfig) (sqrtQ : ℚ → ℚ) (st : StrokeState)
    (x y t : ℚ) : StrokeState × List StampCall :=
  if st.active = false then (st, [])
  else
    let dx := x - st.lastX
    let dy := y - st.lastY
    let dist := sqrtQ (dx * dx + dy * dy)
    let spacing := max 1 tool.spacing
    let dt := max 0 (t - st.lastT)
    let residual0 := min st.residual spacing
    let dirX := if 0 < dist then dx / dist else st.lastDirX
    let dirY := if 0 < dist then dy / dist else st.lastDirY
    let fuel := (⌈residual0 + dist⌉).toNat + 2
    let lp := moveLoop spacing dist dt st.lastX st.lastY x y dirX dirY
      fuel residual0 0
    let st2 := { st with
      residual := lp.2.2 + max 0 (dist - lp.2.1)
      lastX := x, lastY := y, lastT := t
      lastDirX := if 0 < dist then dirX else st.lastDirX
      lastDirY := if 0 < dist then dirY else st.lastDirY
      stamped := st.stamped || !lp.1.isEmpty }
    if dist = 0 ∧ 0 < dt then
      ({ st2 with stamped := true },
       lp.1 ++ [⟨x, y, 0, dt, st2.lastDirX, st2.lastDirY⟩])
    else (st2, lp.1)

/-- `StrokeSystem.handleUp(x, y, t)`: ignored while inactive; otherwise
always place one final stamp at the release point, record the final
direction, and deactivate (`setActive(false)` also resets the residual). -/
def handleUp (sqrtQ : ℚ → ℚ) (st : StrokeState) (x y t : ℚ) :
    StrokeState × List StampCall :=
  if st.active = false then (st, [])
  else
    let dx := x - st.lastX
    let dy := y - st.lastY
    let dist := sqrtQ (dx * dx + dy * dy)
    let dt := max 0 (t - st.lastT)
    let dirX := if 0 < dist then dx / dist else st.lastDirX
    let dirY := if 0 < dist then dy / dist else st.lastDirY
    ({ st with stamped := true, lastDirX := dirX, lastDirY := dirY
               active := false, residual := 0 },
     [⟨x, y, dist, dt, dirX, dirY⟩])

/-- The running state invariant: coverage vanishes wherever the silhouette
mask is 0, and the layer table holds a grid of exactly `size²` cells for
both ids. -/
def DirtInv (s : DirtState) : Prop :=
  (∀ (id : DirtLayerId) (i : ℕ),
    s.mask.getD i 0 = 0 → (getMapGrid s id).getD i 0 = 0) ∧
  (∀ id : DirtLayerId,
    ∃ g, mapEntry s id = some g ∧ g.length = s.size * s.size)

/-! Helper lemmas about the engine state. -/

@[simp]
theorem setMapEntry_size (s : DirtState) (id : DirtLayerId) (g : List ℚ) :
    (setMapEntry s id g).size = s.size := by cases id <;> rfl

@[simp]
theorem setMapEntry_mask (s : DirtState) (id : DirtLayerId) (g : List ℚ) :
    (setMapEntry s id g).mask = s.mask := by cases id <;> rfl

@[simp]
theorem setMapEntry_layers (s : DirtState) (id : DirtLayerId) (g : List ℚ) :
    (setMapEntry s id g).layers = s.layers := by cases id <;> rfl

theorem mapEntry_setMapEntry (s : DirtState) (id id' : DirtLayerId)
    (g : List ℚ) :
    mapEntry (setMapEntry s id g) id' =
      if id = id' then some g else mapEntry s id' := by
  cases id <;> cases id' <;> simp [mapEntry, setMapEntry]

theorem getMapGrid_setMapEntry (s : DirtState) (id id' : DirtLayerId)
    (g : List ℚ) :
    getMapGrid (setMapEntry s id g) id' =
      if id = id' then g else getMapGrid s id' := by
  rw [getMapGrid, mapEntry_setMapEntry, setMapEntry_size]
  split <;> simp [getMapGrid]

theorem getD_replicate_zero (n i : ℕ) :
    (List.replicate n (0 : ℚ)).getD i 0 = 0 := by
  rw [List.getD_eq_getElem?_getD, List.getElem?_replicate]
  split <;> simp

theorem getD_range_map (f : ℕ → ℚ) (n i : ℕ) :
    ((List.range n).map f).getD i 0 = if i < n then f i else 0 := by
  rw [List.getD_eq_getElem?_getD, List.getElem?_map]
  by_cases h : i < n
  · rw [List.getElem?_range h, if_pos h]
    rfl
  · rw [List.getElem?_eq_none (by simpa using Nat.le_of_not_lt h), if_neg h]
    rfl

theorem foldl_preserve {α β : Type} {P : β → Prop} (f : β → α → β)
    (l : List α) (h : ∀ b a, a ∈ l → P b → P (f b a)) (b : β) (hb : P b) :
    P (l.foldl f b) := by
  induction l generalizing b with
  | nil => exact hb
  | cons a t ih =>
    exact ih (fun b' a' ha' => h b' a' (List.mem_cons_of_mem _ ha')) _
      (h b a (List.mem_cons_self a t) hb)

@[simp]
theorem ensureEntry_size (s : DirtState) (id : DirtLayerId) :
    (ensureEntry s id).size = s.size := by
  unfold ensureEntry
  rcases mapEntry s id with _ | g <;> simp

@[simp]
theorem ensureEntry_mask (s : DirtState) (id : DirtLayerId) :
    (ensureEntry s id).mask = s.mask := by
  unfold ensureEntry
  rcases mapEntry s id with _ | g <;> simp

@[simp]
theorem ensureEntry_layers (s : DirtState) (id : DirtLayerId) :
    (ensureEntry s id).layers = s.layers := by
  unfold ensureEntry
  rcases mapEntry s id with _ | g <;> simp

theorem mapEntry_ensureEntry_self (s : DirtState) (id : DirtLayerId) :
    mapEntry (ensureEntry s id) id = some (getMapGrid s id) := by
  unfold ensureEntry
  rcases hc : mapEntry s id with _ | g
  · rw [mapEntry_setMapEntry, if_pos rfl, getMapGrid, hc]
    rfl
  · rw [hc, getMapGrid, hc]
    rfl

theorem mapEntry_ensureEntry_ne (s : DirtState) (id id' : DirtLayerId)
    (h : id ≠ id') :
    mapEntry (ensureEntry s id) id' = mapEntry s id' := by
  unfold ensureEntry
  rcases hc : mapEntry s id with _ | g
  · rw [mapEntry_setMapEntry, if_neg h]
  · rfl

theorem getMapGrid_ensureEntry (s : DirtState) (id id' : DirtLayerId) :
    getMapGrid (ensureEntry s id) id' = getMapGrid s id' := by
  by_cases h : id = id'
  · subst h
    rw [getMapGrid, mapEntry_ensureEntry_self]
    rfl
  · rw [getMapGrid, mapEntry_ensureEntry_ne s id id' h, ensureEntry_size,
      getMapGrid]

theorem length_getMapGrid {s : DirtState} {id : DirtLayerId}
    (hl : mapEntry s id = none ∨
      ∃ g, mapEntry s id = some g ∧ g.length = s.size * s.size) :
    (getMapGrid s id).length = s.size * s.size := by
  rcases hl with hn | ⟨g, hg, hlen⟩
  · rw [getMapGrid, hn]
    simp
  · rw [getMapGrid, hg]
    exact hlen

theorem dirtInv_ensureBoth {s : DirtState}
    (h0 : ∀ (id' : DirtLayerId) (i : ℕ),
      s.mask.getD i 0 = 0 → (getMapGrid s id').getD i 0 = 0)
    (hl : ∀ id' : DirtLayerId, mapEntry s id' = none ∨
      ∃ g, mapEntry s id' = some g ∧ g.length = s.size * s.size) :
    (ensureBothEntries s).size = s.size ∧
    (ensureBothEntries s).mask = s.mask ∧ DirtInv (ensureBothEntries s) := by
  have hgrid : ∀ id' : DirtLayerId,
      getMapGrid (ensureBothEntries s) id' = getMapGrid s id' := by
    intro id'
    rw [ensureBothEntries, getMapGrid_ensureEntry, getMapGrid_ensureEntry]
  refine ⟨by simp [ensureBothEntries], by simp [ensureBothEntries], ?_, ?_⟩
  · intro id i hi
    rw [hgrid]
    exact h0 id i (by simpa [ensureBothEntries] using hi)
  · intro id
    have hlen : (getMapGrid s id).length = s.size * s.size :=
      length_getMapGrid (hl id)
    cases id with
    | mold =>
      refine ⟨getMapGrid s DirtLayerId.mold, ?_, by simpa [ensureBothEntries]⟩
      rw [ensureBothEntries,
        mapEntry_ensureEntry_ne _ _ _ (by intro h; cases h),
        mapEntry_ensureEntry_self]
    | grease =>
      refine ⟨getMapGrid (ensureEntry s DirtLayerId.mold) DirtLayerId.grease,
        ?_, ?_⟩
      · rw [ensureBothEntries, mapEntry_ensureEntry_self]
      · rw [getMapGrid_ensureEntry]
        simpa [ensureBothEntries] using hlen

theorem dirtInv_mk (size : ℕ) (layers : List DirtLayerConfig)
    (mask : List ℕ) :
    (mkDirtSystem size layers mask).size = size ∧
    (mkDirtSystem size layers mask).mask = mask ∧
    DirtInv (mkDirtSystem size layers mask) := by
  unfold mkDirtSystem
  have key := foldl_preserve
    (P := fun st : DirtState => st.size = size ∧ st.mask = mask ∧
      (∀ (id : DirtLayerId) (i : ℕ), (getMapGrid st id).getD i 0 = 0) ∧
      (∀ id : DirtLayerId, mapEntry st id = none ∨
        ∃ g, mapEntry st id = some g ∧ g.length = st.size * st.size))
    (fun st l => setMapEntry st l.id (List.replicate (size * size) 0)) layers
    (fun st l _ hst => by
      obtain ⟨hs, hm, h0, hl⟩ := hst
      refine ⟨by simpa, by simpa, ?_, ?_⟩
      · intro id i
        rw [getMapGrid_setMapEntry]
        split
        · exact getD_replicate_zero _ _
        · exact h0 id i
      · intro id
        rw [mapEntry_setMapEntry]
        split
        · exact Or.inr ⟨_, rfl, by simp [hs]⟩
        · simpa using hl id)
    { size := size, layers := layers, mask := mask
      mapMold := none, mapGrease := none }
    ⟨rfl, rfl,
      fun id i => by
        cases id <;>
          simp [getMapGrid, mapEntry, getD_replicate_zero],
      fun id => by cases id <;> exact Or.inl rfl⟩
  obtain ⟨hs, hm, h0, hl⟩ := key
  obtain ⟨hs', hm', hinv⟩ := dirtInv_ensureBoth (fun id' i _ => h0 id' i)
    (by
      intro id'
      rcases hl id' with hn | ⟨g, hg, hlen⟩
      · exact Or.inl hn
      · exact Or.inr ⟨g, hg, by rw [hlen, hs]⟩)
  exact ⟨by rw [hs', hs], by rw [hm', hm], hinv⟩

theorem stampCell_length (sqrtQ : ℚ → ℚ) (size : ℕ) (mask : List ℕ)
    (cX cY : ℤ) (strength eraseRate radius : ℚ) (g : List ℚ) (c : ℤ × ℤ) :
    (stampCell sqrtQ size mask cX cY strength eraseRate radius g c).length =
      g.length := by
  unfold stampCell
  dsimp only
  repeat' split
  all_goals simp

theorem stampCell_getD_outside (sqrtQ : ℚ → ℚ) (size : ℕ) (mask : List ℕ)
    (cX cY : ℤ) (strength eraseRate radius : ℚ) (g : List ℚ) (c : ℤ × ℤ)
    (i : ℕ) (hi : mask.getD i 0 = 0) :
    (stampCell sqrtQ size mask cX cY strength eraseRate radius g c).getD i 0 =
      g.getD i 0 := by
  unfold stampCell
  dsimp only
  split
  · rfl
  · split
    · rfl
    · rename_i hmask
      split
      · rfl
      · split
        · rfl
        · have hne : (c.2 * (size : ℤ) + c.1).toNat ≠ i := by
            intro h
            exact hmask (h ▸ hi)
          rw [List.getD_eq_getElem?_getD, List.getElem?_set, if_neg hne,
            ← List.getD_eq_getElem?_getD]

theorem stampLayer_length (sqrtQ : ℚ → ℚ) (size : ℕ) (mask : List ℕ)
    (cX cY : ℤ) (strength eraseRate radius : ℚ) (g : List ℚ) :
    (stampLayer sqrtQ size mask cX cY strength eraseRate radius g).length =
      g.length := by
  unfold stampLayer
  dsimp only
  refine foldl_preserve (P := fun g' => g'.length = g.length)
    (stampCell sqrtQ size mask cX cY strength eraseRate radius) _ ?_ g rfl
  intro g' c _ h
  rw [stampCell_length, h]

theorem stampLayer_getD_outside (sqrtQ : ℚ → ℚ) (size : ℕ) (mask : List ℕ)
    (cX cY : ℤ) (strength eraseRate radius : ℚ) (g : List ℚ) (i : ℕ)
    (hi : mask.getD i 0 = 0) :
    (stampLayer sqrtQ size mask cX cY strength eraseRate radius g).getD i 0 =
      g.getD i 0 := by
  unfold stampLayer
  dsimp only
  refine foldl_preserve (P := fun g' => g'.getD i 0 = g.getD i 0)
    (stampCell sqrtQ size mask cX cY strength eraseRate radius) _ ?_ g rfl
  intro g' c _ h
  rw [stampCell_getD_outside _ _ _ _ _ _ _ _ _ _ _ hi, h]

theorem dirtInv_stampLoop (s : DirtState) (sqrtQ : ℚ → ℚ) (cX cY : ℤ)
    (strength srf : ℚ) (h : DirtInv s) :
    (s.layers.foldl
      (fun st layer => setMapEntry st layer.id
        (stampLayer sqrtQ s.size s.mask cX cY strength layer.eraseRate
          (max 1 (10 * layer.baseRadius * srf)) (getMapGrid st layer.id)))
      s).size = s.size ∧
    (s.layers.foldl
      (fun st layer => setMapEntry st layer.id
        (stampLayer sqrtQ s.size s.mask cX cY strength layer.eraseRate
          (max 1 (10 * layer.baseRadius * srf)) (getMapGrid st layer.id)))
      s).mask = s.mask ∧
    DirtInv (s.layers.foldl
      (fun st layer => setMapEntry st layer.id
        (stampLayer sqrtQ s.size s.mask cX cY strength layer.eraseRate
          (max 1 (10 * layer.baseRadius * srf)) (getMapGrid st layer.id)))
      s) := by
  refine foldl_preserve (P := fun st : DirtState => st.size = s.size ∧
      st.mask = s.mask ∧ DirtInv st)
    (fun st layer => setMapEntry st layer.id
      (stampLayer sqrtQ s.size s.mask cX cY strength layer.eraseRate
        (max 1 (10 * layer.baseRadius * srf)) (getMapGrid st layer.id)))
    s.layers ?_ s ⟨rfl, rfl, h⟩
  intro st layer _ hst
  obtain ⟨hs, hm, h0, hl⟩ := hst
  refine ⟨by simpa, by simpa, ?_, ?_⟩
  · intro id i hi
    simp only [setMapEntry_mask, hm] at hi
    rw [getMapGrid_setMapEntry]
    split
    · rw [stampLayer_getD_outside _ _ _ _ _ _ _ _ _ _ hi]
      exact h0 layer.id i (by rw [hm]; exact hi)
    · exact h0 id i (by rw [hm]; exact hi)
  · intro id
    rw [mapEntry_setMapEntry]
    split
    · refine ⟨_, rfl, ?_⟩
      dsimp only
      rw [stampLayer_length, length_getMapGrid (Or.inr (hl layer.id)),
        setMapEntry_size]
    · obtain ⟨g, hg, hlen⟩ := hl id
      exact ⟨g, hg, by simpa using hlen⟩

theorem thicknessGrid_length (size : ℕ) (mask : List ℕ) (rngSt : ℕ)
    (target : ℚ) :
    (thicknessGrid size mask rngSt target).length = size * size := by
  simp [thicknessGrid]

theorem thicknessGrid_getD_outside (size : ℕ) (mask : List ℕ) (rngSt : ℕ)
    (target : ℚ) (i : ℕ) (hi : mask.getD i 0 = 0) :
    (thicknessGrid size mask rngSt target).getD i 0 = 0 := by
  unfold thicknessGrid
  rw [getD_range_map]
  split
  · split
    · rename_i hc
      exact absurd hc (by rw [hi]; exact zero_ne_one)
    · rfl
  · rfl

theorem thresholdGrid_length (size : ℕ) (mask : List ℕ) (rngSt : ℕ)
    (target : ℚ) :
    (thresholdGrid size mask rngSt target).length = size * size := by
  simp [thresholdGrid]

theorem thresholdGrid_getD_outside (size : ℕ) (mask : List ℕ) (rngSt : ℕ)
    (target : ℚ) (i : ℕ) (hi : mask.getD i 0 = 0) :
    (thresholdGrid size mask rngSt target).getD i 0 = 0 := by
  unfold thresholdGrid
  rw [getD_range_map]
  split
  · split
    · rename_i hc
      exact absurd hc.1 (by rw [hi]; exact zero_ne_one)
    · rfl
  · rfl

theorem dirtInv_initFold (s : DirtState) (rngSt : ℕ) (cov : DirtLayerId → ℚ)
    (B : DirtState → ℕ → DirtLayerConfig → List ℚ) (A : ℕ → ℕ)
    (hB : ∀ (st : DirtState) (r : ℕ) (layer : DirtLayerConfig),
      st.mask = s.mask → st.size = s.size →
      (B st r layer).length = s.size * s.size ∧
      ∀ i, s.mask.getD i 0 = 0 → (B st r layer).getD i 0 = 0)
    (h : DirtInv s) :
    (s.layers.foldl (initStepFn s cov B A) (s, rngSt)).1.size = s.size ∧
    (s.layers.foldl (initStepFn s cov B A) (s, rngSt)).1.mask = s.mask ∧
    DirtInv (s.layers.foldl (initStepFn s cov B A) (s, rngSt)).1 := by
  refine foldl_preserve (P := fun acc : DirtState × ℕ => acc.1.size = s.size ∧
      acc.1.mask = s.mask ∧ DirtInv acc.1)
    (initStepFn s cov B A) s.layers ?_ (s, rngSt) ⟨rfl, rfl, h⟩
  intro acc layer _ hacc
  obtain ⟨hs, hm, h0, hl⟩ := hacc
  have hBl := hB acc.1 acc.2 layer hm hs
  unfold initStepFn
  split
  all_goals refine ⟨by simpa, by simpa, ?_, ?_⟩
  · intro id i hi
    simp only [setMapEntry_mask, hm] at hi
    rw [getMapGrid_setMapEntry]
    split
    · exact getD_replicate_zero _ _
    · exact h0 id i (by rw [hm]; exact hi)
  · intro id
    rw [mapEntry_setMapEntry]
    split
    · exact ⟨_, rfl, by simp [hs]⟩
    · obtain ⟨g, hg, hlen⟩ := hl id
      exact ⟨g, hg, by simpa using hlen⟩
  · intro id i hi
    simp only [setMapEntry_mask, hm] at hi
    rw [getMapGrid_setMapEntry]
    split
    · exact hBl.2 i hi
    · exact h0 id i (by rw [hm]; exact hi)
  · intro id
    rw [mapEntry_setMapEntry]
    split
    · exact ⟨_, rfl, by simpa [hs] using hBl.1⟩
    · obtain ⟨g, hg, hlen⟩ := hl id
      exact ⟨g, hg, by simpa using hlen⟩

theorem dirtInv_init {s : DirtState} (h : DirtInv s) (rngSt : ℕ)
    (cov : DirtLayerId → ℚ) :
    (dirtInit s rngSt cov).size = s.size ∧
    (dirtInit s rngSt cov).mask = s.mask ∧ DirtInv (dirtInit s rngSt cov) := by
  have key := dirtInv_initFold s rngSt cov
    (fun st r layer =>
      thicknessGrid st.size st.mask r (min 1 (max 0 (cov layer.id))))
    (fun r => rngAdvance r (3 * (s.size * s.size)))
    (fun st r layer hm hs => by
      constructor
      · rw [thicknessGrid_length, hs]
      · intro i hi
        exact thicknessGrid_getD_outside _ _ _ _ i (by rw [hm]; exact hi))
    h
  obtain ⟨hs, hm, h0, hl⟩ := key
  have hres := dirtInv_ensureBoth (s := _) h0 (fun id' => Or.inr (hl id'))
  exact ⟨hres.1.trans hs, hres.2.1.trans hm, hres.2.2⟩

theorem dirtInv_initThreshold {s : DirtState} (h : DirtInv s) (rngSt : ℕ)
    (cov : DirtLayerId → ℚ) :
    (dirtInitThreshold s rngSt cov).size = s.size ∧
    (dirtInitThreshold s rngSt cov).mask = s.mask ∧
    DirtInv (dirtInitThreshold s rngSt cov) := by
  have key := dirtInv_initFold s rngSt cov
    (fun st r layer =>
      thresholdGrid st.size st.mask r (min 1 (max 0 (cov layer.id))))
    (fun r => rngAdvance r (s.size * s.size))
    (fun st r layer hm hs => by
      constructor
      · rw [thresholdGrid_length, hs]
      · intro i hi
        exact thresholdGrid_getD_outside _ _ _ _ i (by rw [hm]; exact hi))
    h
  obtain ⟨hs, hm, h0, hl⟩ := key
  have hres := dirtInv_ensureBoth (s := _) h0 (fun id' => Or.inr (hl id'))
  exact ⟨hres.1.trans hs, hres.2.1.trans hm, hres.2.2⟩

theorem dirtInv_stamp {s : DirtState} (h : DirtInv s) (sqrtQ : ℚ → ℚ)
    (u v strength radiusFactor : ℚ) :
    (applyStampUV sqrtQ s u v strength radiusFactor).size = s.size ∧
    (applyStampUV sqrtQ s u v strength radiusFactor).mask = s.mask ∧
    DirtInv (applyStampUV sqrtQ s u v strength radiusFactor) := by
  unfold applyStampUV
  split
  · exact ⟨rfl, rfl, h⟩
  · exact dirtInv_stampLoop s sqrtQ _ _ strength _ h

theorem reachable_dirtInv {s : DirtState} (h : ReachableDirt s) : DirtInv s := by
  induction h with
  | base size layers mask => exact (dirtInv_mk size layers mask).2.2
  | initStep s rngSt cov _ ih => exact (dirtInv_init ih rngSt cov).2.2
  | initThresholdStep s rngSt cov _ ih =>
    exact (dirtInv_initThreshold ih rngSt cov).2.2
  | stampStep s sqrtQ u v strength radiusFactor _ ih =>
    exact (dirtInv_stamp ih sqrtQ u v strength radiusFactor).2.2

/-! The claims. -/

/-- C1.  Silhouette containment: at every reachable engine state — after
construction and any sequence of `init` (either strategy) and `applyStampUV`
calls — every cell whose silhouette-mask byte is 0 has coverage 0 in every
layer's map. -/
theorem silhouette_containment (s : DirtState) (h : ReachableDirt s)
    (id : DirtLayerId) (i : ℕ) (hmask : s.mask.getD i 0 = 0) :
    (getMapGrid s id).getD i 0 = 0 :=
  (reachable_dirtInv h).1 id i hmask

theorem silhouette_containment_witness :
    (getMapGrid (mkDirtSystem 1 [] [0]) DirtLayerId.mold).getD 0 0 = 0 :=
  silhouette_containment (mkDirtSystem 1 [] [0])
    (ReachableDirt.base 1 [] [0]) DirtLayerId.mold 0 rfl

/-- C9.  Zero-seed remap: constructing the RNG with seed 0 stores the fixed
nonzero constant `0x6d2b79f5`, and the first five `next()` outputs of
`RNG(0)` and `RNG(1)` differ. -/
theorem rng_zero_seed_remap :
    rngSeedState 0 = 0x6d2b79f5 ∧ rngSeedState 0 ≠ 0 ∧
    rngOutputs 5 (rngSeedState 0) ≠ rngOutputs 5 (rngSeedState 1) :=
  ⟨rfl, by decide, by decide⟩

/-- C7.  No-op guard: `applyStampUV` with non-positive strength (in
particular strength 0) leaves every layer's coverage grid unchanged. -/
theorem stamp_noop_guard (sqrtQ : ℚ → ℚ) (s : DirtState)
    (u v strength radiusFactor : ℚ) (h : strength ≤ 0) (id : DirtLayerId) :
    getMapGrid (applyStampUV sqrtQ s u v strength radiusFactor) id =
      getMapGrid s id := by
  unfold applyStampUV
  rw [if_pos h]

theorem stamp_noop_guard_witness :
    getMapGrid (applyStampUV (fun q => q) (mkDirtSystem 1 [] [1]) 0 0 0 1)
        DirtLayerId.mold =
      getMapGrid (mkDirtSystem 1 [] [1]) DirtLayerId.mold :=
  stamp_noop_guard (fun q => q) (mkDirtSystem 1 [] [1]) 0 0 0 1 le_rfl
    DirtLayerId.mold

/-- C3.  Determinism of initialization: two engines built over the same
silhouette mask and layer configuration, each initialized with a fresh RNG
constructed from the same seed and the same target-coverage record, hold
identical coverage grids for every layer after `init` returns. -/
theorem init_deterministic (size : ℕ) (layers : List DirtLayerConfig)
    (mask : List ℕ) (seed : ℕ) (cov : DirtLayerId → ℚ) (e1 e2 : DirtState)
    (h1 : e1 = mkDirtSystem size layers mask)
    (h2 : e2 = mkDirtSystem size layers mask) (id : DirtLayerId) :
    getMapGrid (dirtInit e1 (rngSeedState seed) cov) id =
      getMapGrid (dirtInit e2 (rngSeedState seed) cov) id := by
  subst h1 h2
  rfl

theorem init_deterministic_witness :
    getMapGrid (dirtInit (mkDirtSystem 1 [] [1]) (rngSeedState 42)
        (fun _ => 1)) DirtLayerId.mold =
      getMapGrid (dirtInit (mkDirtSystem 1 [] [1]) (rngSeedState 42)
        (fun _ => 1)) DirtLayerId.mold :=
  init_deterministic 1 [] [1] 42 (fun _ => 1) _ _ rfl rfl DirtLayerId.mold

/-- C10.  Layer-table totality: at every reachable state the table holds a
`size²`-cell grid for both `'mold'` and `'grease'` (even when the supplied
layer configuration omitted them), `getMap` returns a `size²` grid for every
id, and — for any state at all — a missing entry is served as a zero-filled
`size²` grid rather than failing. -/
theorem layer_table_total (s : DirtState) (h : ReachableDirt s) :
    (∃ g, mapEntry s DirtLayerId.mold = some g ∧
      g.length = s.size * s.size) ∧
    (∃ g, mapEntry s DirtLayerId.grease = some g ∧
      g.length = s.size * s.size) ∧
    (∀ id : DirtLayerId, (getMap s id).length = s.size * s.size) ∧
    (∀ (t : DirtState) (id : DirtLayerId), mapEntry t id = none →
      getMap t id = List.replicate (t.size * t.size) 0) ∧
    getMapsForShader s =
      (s.size, getMap s DirtLayerId.mold, getMap s DirtLayerId.grease) := by
  refine ⟨(reachable_dirtInv h).2 DirtLayerId.mold,
    (reachable_dirtInv h).2 DirtLayerId.grease, ?_, ?_, rfl⟩
  · intro id
    exact length_getMapGrid (Or.inr ((reachable_dirtInv h).2 id))
  · intro t id hn
    rw [getMap, getMapGrid, hn]
    rfl

theorem layer_table_total_witness :
    ∃ g, mapEntry (mkDirtSystem 2 [] []) DirtLayerId.mold = some g ∧
      g.length = (mkDirtSystem 2 [] []).size * (mkDirtSystem 2 [] []).size :=
  (layer_table_total (mkDirtSystem 2 [] []) (ReachableDirt.base 2 [] [])).1

/-- C6.  Stroke anchoring: with the converter active, `handleDown(x,y,t)`
immediately followed by `handleUp(x,y,t)` with no intervening move places
exactly 2 stamps, both at `(x,y)` — the anchor stamp and the final stamp —
even though the distance travelled is 0. -/
theorem stroke_anchoring (sqrtQ : ℚ → ℚ) (st : StrokeState) (x y t : ℚ)
    (h : st.active = true) :
    ((handleDown st x y t).2 ++
      (handleUp sqrtQ (handleDown st x y t).1 x y t).2).map
        (fun p => (p.x, p.y)) = [(x, y), (x, y)] ∧
    ((handleDown st x y t).2 ++
      (handleUp sqrtQ (handleDown st x y t).1 x y t).2).length = 2 := by
  simp [handleDown, handleUp, h]

theorem stroke_anchoring_witness :
    ((handleDown ⟨true, 0, 0, 0, 0, false, 0, -1⟩ 5 7 1).2 ++
      (handleUp (fun q => q)
        (handleDown ⟨true, 0, 0, 0, 0, false, 0, -1⟩ 5 7 1).1 5 7 1).2).map
        (fun p => (p.x, p.y)) = [(5, 7), (5, 7)] ∧
    ((handleDown ⟨true, 0, 0, 0, 0, false, 0, -1⟩ 5 7 1).2 ++
      (handleUp (fun q => q)
        (handleDown ⟨true, 0, 0, 0, 0, false, 0, -1⟩ 5 7 1).1 5 7 1).2).length
      = 2 :=
  stroke_anchoring (fun q => q) ⟨true, 0, 0, 0, 0, false, 0, -1⟩ 5 7 1 rfl

/-- C8, counterexample.  The claim marks a cell inside exactly when its
sampled alpha is at least `threshold * 255`; the code floors that product
first.  At `threshold = 1/2` and `alpha = 127` the code marks the cell
inside although `127 < 127.5`. -/
theorem mask_threshold_counterexample :
    buildMask [127] (1 / 2) = [1] ∧ ¬ ((1 / 2 : ℚ) * 255 ≤ (127 : ℚ)) := by
  constructor
  · norm_num [buildMask]
  · norm_num

/-- C8, amended.  Mask thresholding rule as implemented: a cell is marked
inside (value 1) iff it exists and its sampled alpha is at least
`⌊threshold * 255⌋`; all other cells are 0. -/
theorem mask_threshold_amended (alphas : List ℕ) (alphaThreshold : ℚ)
    (i : ℕ) :
    (buildMask alphas alphaThreshold).getD i 0 = 1 ↔
      i < alphas.length ∧
        ⌊alphaThreshold * 255⌋ ≤ (alphas.getD i 0 : ℤ) := by
  unfold buildMask
  dsimp only
  rw [List.getD_eq_getElem?_getD, List.getElem?_map]
  by_cases hlt : i < alphas.length
  · rw [List.getElem?_eq_getElem hlt]
    have hv : alphas.getD i 0 = alphas[i] := by
      rw [List.getD_eq_getElem?_getD, List.getElem?_eq_getElem hlt]
      rfl
    rw [hv]
    show (if ⌊alphaThreshold * 255⌋ ≤ ((alphas[i] : ℕ) : ℤ) then (1 : ℕ)
      else 0) = 1 ↔ _
    split
    · rename_i hc
      simp [hlt, hc]
    · rename_i hc
      simp [hlt, hc]
  · rw [List.getElem?_eq_none (Nat.le_of_not_lt hlt)]
    show (0 : ℕ) = 1 ↔ _
    simp [hlt]

theorem softFalloff_nonneg (r : ℚ) : 0 ≤ softFalloff r := by
  unfold softFalloff
  dsimp only
  split
  · exact le_rfl
  · exact mul_self_nonneg _

theorem getD_nonneg_of_forall {g : List ℚ} (hg : ∀ x ∈ g, 0 ≤ x) (i : ℕ) :
    0 ≤ g.getD i 0 := by
  rw [List.getD_eq_getElem?_getD]
  rcases hx : g[i]? with _ | x
  · simp
  · simpa using hg x (List.getElem?_mem hx)

theorem stampCell_le (sqrtQ : ℚ → ℚ) (size : ℕ) (mask : List ℕ)
    (cX cY : ℤ) {strength eraseRate : ℚ} (radius : ℚ)
    (hs : 0 ≤ strength) (he : 0 ≤ eraseRate) (g0 g : List ℚ) (c : ℤ × ℤ)
    (hg : ∀ i, g.getD i 0 ≤ g0.getD i 0 ∧ 0 ≤ g.getD i 0) (i : ℕ) :
    (stampCell sqrtQ size mask cX cY strength eraseRate radius g c).getD i 0 ≤
      g0.getD i 0 ∧
    0 ≤ (stampCell sqrtQ size mask cX cY strength eraseRate radius g
      c).getD i 0 := by
  unfold stampCell
  dsimp only
  split
  · exact hg i
  split
  · exact hg i
  split
  · exact hg i
  split
  · exact hg i
  by_cases hij : (c.2 * (size : ℤ) + c.1).toNat = i
  · subst hij
    by_cases hlen : (c.2 * (size : ℤ) + c.1).toNat < g.length
    · rw [List.getD_eq_getElem?_getD, List.getElem?_set, if_pos rfl,
        if_pos hlen]
      simp only [Option.getD_some]
      split
      · exact ⟨le_trans (sub_le_self _ (mul_nonneg
          (mul_nonneg (softFalloff_nonneg _) hs) he)) (hg _).1,
          le_of_lt (by assumption)⟩
      · exact ⟨le_trans (hg _).2 (hg _).1, le_rfl⟩
    · rw [List.getD_eq_getElem?_getD, List.getElem?_set, if_pos rfl,
        if_neg hlen]
      exact ⟨le_trans (hg _).2 (hg _).1, le_rfl⟩
  · rw [List.getD_eq_getElem?_getD, List.getElem?_set, if_neg hij,
      ← List.getD_eq_getElem?_getD]
    exact hg i

theorem stampLayer_le (sqrtQ : ℚ → ℚ) (size : ℕ) (mask : List ℕ)
    (cX cY : ℤ) {strength eraseRate : ℚ} (radius : ℚ)
    (hs : 0 ≤ strength) (he : 0 ≤ eraseRate) (g : List ℚ)
    (hg : ∀ i, 0 ≤ g.getD i 0) (i : ℕ) :
    (stampLayer sqrtQ size mask cX cY strength eraseRate radius g).getD i 0 ≤
      g.getD i 0 ∧
    0 ≤ (stampLayer sqrtQ size mask cX cY strength eraseRate radius
      g).getD i 0 := by
  unfold stampLayer
  dsimp only
  refine foldl_preserve
    (P := fun g' => ∀ j, g'.getD j 0 ≤ g.getD j 0 ∧ 0 ≤ g'.getD j 0)
    (stampCell sqrtQ size mask cX cY strength eraseRate radius) _ ?_ g
    (fun j => ⟨le_rfl, hg j⟩) i
  intro g' c _ hg' j
  exact stampCell_le sqrtQ size mask cX cY radius hs he g g' c hg' j

set_option maxHeartbeats 1000000 in
theorem stampLoop_mono (s : DirtState) (sqrtQ : ℚ → ℚ) (cX cY : ℤ)
    (strength srf : ℚ) (hs : 0 ≤ strength)
    (her : ∀ l ∈ s.layers, 0 ≤ l.eraseRate)
    (hnn : ∀ (id : DirtLayerId) (i : ℕ), 0 ≤ (getMapGrid s id).getD i 0)
    (id : DirtLayerId) (i : ℕ) :
    (getMapGrid (s.layers.foldl
      (fun st layer => setMapEntry st layer.id
        (stampLayer sqrtQ s.size s.mask cX cY strength layer.eraseRate
          (max 1 (10 * layer.baseRadius * srf)) (getMapGrid st layer.id)))
      s) id).getD i 0 ≤ (getMapGrid s id).getD i 0 ∧
    0 ≤ (getMapGrid (s.layers.foldl
      (fun st layer => setMapEntry st layer.id
        (stampLayer sqrtQ s.size s.mask cX cY strength layer.eraseRate
          (max 1 (10 * layer.baseRadius * srf)) (getMapGrid st layer.id)))
      s) id).getD i 0 := by
  refine foldl_preserve (P := fun st : DirtState =>
      ∀ (id' : DirtLayerId) (j : ℕ),
        (getMapGrid st id').getD j 0 ≤ (getMapGrid s id').getD j 0 ∧
        0 ≤ (getMapGrid st id').getD j 0)
    (fun st layer => setMapEntry st layer.id
      (stampLayer sqrtQ s.size s.mask cX cY strength layer.eraseRate
        (max 1 (10 * layer.baseRadius * srf)) (getMapGrid st layer.id)))
    s.layers ?_ s (fun id' j => ⟨le_rfl, hnn id' j⟩) id i
  intro st layer hmem hst id' j
  rw [getMapGrid_setMapEntry]
  split
  · rename_i hid
    have hlayer := stampLayer_le sqrtQ s.size s.mask cX cY
      (max 1 (10 * layer.baseRadius * srf)) hs (her layer hmem)
      (getMapGrid st layer.id) (fun k => (hst layer.id k).2) j
    rw [← hid]
    exact ⟨le_trans hlayer.1 (hst layer.id j).1, hlayer.2⟩
  · exact hst id' j

theorem floatAt_nonneg (st j : ℕ) : 0 ≤ floatAt st j := by
  unfold floatAt rngFloatOut
  positivity

theorem blurH_nonneg (size : ℕ) (f : ℕ → ℚ) (hf : ∀ j, 0 ≤ f j) (i : ℕ) :
    0 ≤ blurH size f i := by
  unfold blurH
  dsimp only
  apply div_nonneg _ (by norm_num)
  apply List.sum_nonneg
  intro q hq
  rw [List.mem_map] at hq
  obtain ⟨k, _, hk⟩ := hq
  rw [← hk]
  exact hf _

theorem blurV_nonneg (size : ℕ) (f : ℕ → ℚ) (hf : ∀ j, 0 ≤ f j) (i : ℕ) :
    0 ≤ blurV size f i := by
  unfold blurV
  dsimp only
  apply div_nonneg _ (by norm_num)
  apply List.sum_nonneg
  intro q hq
  rw [List.mem_map] at hq
  obtain ⟨k, _, hk⟩ := hq
  rw [← hk]
  exact hf _

theorem applyBoxBlur_nonneg (size : ℕ) (f : ℕ → ℚ) (hf : ∀ j, 0 ≤ f j)
    (i : ℕ) : 0 ≤ applyBoxBlur size f i :=
  blurV_nonneg size _ (fun j => blurH_nonneg size f hf j) i

theorem combinedNoise_nonneg (size rngSt : ℕ) (i : ℕ) :
    0 ≤ combinedNoise size rngSt i := by
  unfold combinedNoise
  dsimp only
  have h1 := applyBoxBlur_nonneg size
    (applyBoxBlur size (fun j => floatAt rngSt (3 * j)))
    (applyBoxBlur_nonneg size _ (fun j => floatAt_nonneg rngSt (3 * j))) i
  have h2 := applyBoxBlur_nonneg size (fun j => floatAt rngSt (3 * j + 1))
    (fun j => floatAt_nonneg rngSt (3 * j + 1)) i
  have h3 := floatAt_nonneg rngSt (3 * i + 2)
  positivity

theorem thicknessGrid_getD_nonneg (size : ℕ) (mask : List ℕ) (rngSt : ℕ)
    {target : ℚ} (ht : 0 ≤ target) (i : ℕ) :
    0 ≤ (thicknessGrid size mask rngSt target).getD i 0 := by
  unfold thicknessGrid
  rw [getD_range_map]
  split
  · split
    · exact mul_nonneg (combinedNoise_nonneg size rngSt i) ht
    · exact le_rfl
  · exact le_rfl

theorem thresholdGrid_getD_nonneg (size : ℕ) (mask : List ℕ) (rngSt : ℕ)
    (target : ℚ) (i : ℕ) :
    0 ≤ (thresholdGrid size mask rngSt target).getD i 0 := by
  unfold thresholdGrid
  rw [getD_range_map]
  split
  · split
    · exact zero_le_one
    · exact le_rfl
  · exact le_rfl

theorem mk_getD_zero (size : ℕ) (layers : List DirtLayerConfig)
    (mask : List ℕ) (id : DirtLayerId) (i : ℕ) :
    (getMapGrid (mkDirtSystem size layers mask) id).getD i 0 = 0 := by
  unfold mkDirtSystem
  dsimp only
  rw [ensureBothEntries, getMapGrid_ensureEntry, getMapGrid_ensureEntry]
  refine foldl_preserve (P := fun st : DirtState =>
      ∀ (id' : DirtLayerId) (j : ℕ), (getMapGrid st id').getD j 0 = 0)
    (fun st l => setMapEntry st l.id (List.replicate (size * size) 0))
    layers ?_ _ ?_ id i
  · intro st l _ hst id' j
    rw [getMapGrid_setMapEntry]
    split
    · exact getD_replicate_zero _ _
    · exact hst id' j
  · intro id' j
    cases id' <;> simp [getMapGrid, mapEntry, getD_replicate_zero]

theorem initFold_nonneg (s : DirtState) (rngSt : ℕ) (cov : DirtLayerId → ℚ)
    (B : DirtState → ℕ → DirtLayerConfig → List ℚ) (A : ℕ → ℕ)
    (hB : ∀ (st : DirtState) (r : ℕ) (layer : DirtLayerConfig) (i : ℕ),
      0 ≤ (B st r layer).getD i 0)
    (h : ∀ (id : DirtLayerId) (i : ℕ), 0 ≤ (getMapGrid s id).getD i 0)
    (id : DirtLayerId) (i : ℕ) :
    0 ≤ (getMapGrid
      (s.layers.foldl (initStepFn s cov B A) (s, rngSt)).1 id).getD i 0 := by
  refine foldl_preserve (P := fun acc : DirtState × ℕ =>
      ∀ (id' : DirtLayerId) (j : ℕ), 0 ≤ (getMapGrid acc.1 id').getD j 0)
    (initStepFn s cov B A) s.layers ?_ (s, rngSt) h id i
  intro acc layer _ hacc id' j
  unfold initStepFn
  split
  all_goals dsimp only
  all_goals rw [getMapGrid_setMapEntry]
  · split
    · exact getD_replicate_zero _ _ |>.ge
    · exact hacc id' j
  · split
    · exact hB acc.1 acc.2 layer j
    · exact hacc id' j

theorem stampCell_getD_nonneg (sqrtQ : ℚ → ℚ) (size : ℕ) (mask : List ℕ)
    (cX cY : ℤ) (strength eraseRate radius : ℚ) (g : List ℚ) (c : ℤ × ℤ)
    (hg : ∀ j, 0 ≤ g.getD j 0) (i : ℕ) :
    0 ≤ (stampCell sqrtQ size mask cX cY strength eraseRate radius
      g c).getD i 0 := by
  unfold stampCell
  dsimp only
  split
  · exact hg i
  split
  · exact hg i
  split
  · exact hg i
  split
  · exact hg i
  by_cases hij : (c.2 * (size : ℤ) + c.1).toNat = i
  · subst hij
    by_cases hlen : (c.2 * (size : ℤ) + c.1).toNat < g.length
    · rw [List.getD_eq_getElem?_getD, List.getElem?_set, if_pos rfl,
        if_pos hlen]
      simp only [Option.getD_some]
      split
      · exact le_of_lt (by assumption)
      · exact le_rfl
    · rw [List.getD_eq_getElem?_getD, List.getElem?_set, if_pos rfl,
        if_neg hlen]
      exact le_rfl
  · rw [List.getD_eq_getElem?_getD, List.getElem?_set, if_neg hij,
      ← List.getD_eq_getElem?_getD]
    exact hg i

theorem stampLayer_getD_nonneg (sqrtQ : ℚ → ℚ) (size : ℕ) (mask : List ℕ)
    (cX cY : ℤ) (strength eraseRate radius : ℚ) (g : List ℚ)
    (hg : ∀ j, 0 ≤ g.getD j 0) (i : ℕ) :
    0 ≤ (stampLayer sqrtQ size mask cX cY strength eraseRate radius
      g).getD i 0 := by
  unfold stampLayer
  dsimp only
  refine foldl_preserve (P := fun g' => ∀ j, 0 ≤ g'.getD j 0)
    (stampCell sqrtQ size mask cX cY strength eraseRate radius) _ ?_ g hg i
  intro g' c _ hg' j
  exact stampCell_getD_nonneg sqrtQ size mask cX cY strength eraseRate
    radius g' c hg' j

set_option maxHeartbeats 4000000 in
theorem stampLoop_nonneg (s : DirtState) (sqrtQ : ℚ → ℚ) (cX cY : ℤ)
    (strength srf : ℚ)
    (h : ∀ (id : DirtLayerId) (i : ℕ), 0 ≤ (getMapGrid s id).getD i 0)
    (id : DirtLayerId) (i : ℕ) :
    0 ≤ (getMapGrid (s.layers.foldl
      (fun st layer => setMapEntry st layer.id
        (stampLayer sqrtQ s.size s.mask cX cY strength layer.eraseRate
          (max 1 (10 * layer.baseRadius * srf)) (getMapGrid st layer.id)))
      s) id).getD i 0 := by
  refine foldl_preserve (P := fun st : DirtState =>
      ∀ (id' : DirtLayerId) (j : ℕ), 0 ≤ (getMapGrid st id').getD j 0)
    (fun st layer => setMapEntry st layer.id
      (stampLayer sqrtQ s.size s.mask cX cY strength layer.eraseRate
        (max 1 (10 * layer.baseRadius * srf)) (getMapGrid st layer.id)))
    s.layers ?_ s h id i
  intro st layer _ hst id' j
  rw [getMapGrid_setMapEntry]
  split
  · exact stampLayer_getD_nonneg sqrtQ s.size s.mask cX cY strength
      layer.eraseRate _ (getMapGrid st layer.id)
      (fun k => hst layer.id k) j
  · exact hst id' j

/-- Every state reachable through the public API has nonnegative coverage
everywhere: construction zero-fills, both init strategies write nonnegative
values, and stamping clamps at 0. -/
theorem reachable_nonneg {s : DirtState} (h : ReachableDirt s) :
    ∀ (id : DirtLayerId) (i : ℕ), 0 ≤ (getMapGrid s id).getD i 0 := by
  induction h with
  | base size layers mask =>
    intro id i
    rw [mk_getD_zero]
  | initStep s rngSt cov _ ih =>
    have key := initFold_nonneg s rngSt cov
      (fun st r layer =>
        thicknessGrid st.size st.mask r (min 1 (max 0 (cov layer.id))))
      (fun r => rngAdvance r (3 * (s.size * s.size)))
      (fun st r layer j => thicknessGrid_getD_nonneg st.size st.mask r
        (le_min (by norm_num) (le_max_left 0 _)) j)
      ih
    have hval : ∀ (id' : DirtLayerId) (j : ℕ),
        0 ≤ (getMapGrid (dirtInit s rngSt cov) id').getD j 0 := by
      intro id' j
      have hgrid : getMapGrid (dirtInit s rngSt cov) id' =
          getMapGrid
            (s.layers.foldl (initStepFn s cov
              (fun st r layer => thicknessGrid st.size st.mask r
                (min 1 (max 0 (cov layer.id))))
              (fun r => rngAdvance r (3 * (s.size * s.size))))
              (s, rngSt)).1 id' := by
        show getMapGrid (ensureBothEntries _) id' = _
        rw [ensureBothEntries, getMapGrid_ensureEntry, getMapGrid_ensureEntry]
        rfl
      rw [hgrid]
      exact key id' j
    exact hval
  | initThresholdStep s rngSt cov _ ih =>
    have key := initFold_nonneg s rngSt cov
      (fun st r layer =>
        thresholdGrid st.size st.mask r (min 1 (max 0 (cov layer.id))))
      (fun r => rngAdvance r (s.size * s.size))
      (fun st r layer j => thresholdGrid_getD_nonneg st.size st.mask r _ j)
      ih
    have hval : ∀ (id' : DirtLayerId) (j : ℕ),
        0 ≤ (getMapGrid (dirtInitThreshold s rngSt cov) id').getD j 0 := by
      intro id' j
      have hgrid : getMapGrid (dirtInitThreshold s rngSt cov) id' =
          getMapGrid
            (s.layers.foldl (initStepFn s cov
              (fun st r layer => thresholdGrid st.size st.mask r
                (min 1 (max 0 (cov layer.id))))
              (fun r => rngAdvance r (s.size * s.size)))
              (s, rngSt)).1 id' := by
        show getMapGrid (ensureBothEntries _) id' = _
        rw [ensureBothEntries, getMapGrid_ensureEntry, getMapGrid_ensureEntry]
        rfl
      rw [hgrid]
      exact key id' j
    exact hval
  | stampStep s sqrtQ u v strength radiusFactor _ ih =>
    intro id i
    unfold applyStampUV
    split
    · exact ih id i
    · exact stampLoop_nonneg s sqrtQ _ _ strength _ ih id i

/-- C2.  Stamp monotonic decrease: stamping any reachable engine state
whose configured layer erase rates are nonnegative (every catalog config's
are) with positive strength only ever lowers coverage, and never below 0:
every cell of every layer satisfies `new ≤ old` and `0 ≤ new`. -/
theorem stamp_monotonic_decrease (sqrtQ : ℚ → ℚ) (s : DirtState)
    (u v strength radiusFactor : ℚ) (hre : ReachableDirt s)
    (hpos : 0 < strength) (her : ∀ l ∈ s.layers, 0 ≤ l.eraseRate)
    (id : DirtLayerId) (i : ℕ) :
    (getMapGrid (applyStampUV sqrtQ s u v strength radiusFactor) id).getD i 0
      ≤ (getMapGrid s id).getD i 0 ∧
    0 ≤ (getMapGrid (applyStampUV sqrtQ s u v strength radiusFactor)
      id).getD i 0 := by
  have hnn' : ∀ (id' : DirtLayerId) (j : ℕ),
      0 ≤ (getMapGrid s id').getD j 0 := reachable_nonneg hre
  unfold applyStampUV
  rw [if_neg (not_le.mpr hpos)]
  exact stampLoop_mono s sqrtQ _ _ strength _ (le_of_lt hpos) her hnn' id i

theorem stamp_monotonic_decrease_witness :
    (getMapGrid (applyStampUV (fun q => q)
        (mkDirtSystem 1 [⟨DirtLayerId.mold, 1, 1⟩] [1])
        0 0 1 1) DirtLayerId.mold).getD 0 0 ≤
      (getMapGrid (mkDirtSystem 1 [⟨DirtLayerId.mold, 1, 1⟩] [1])
        DirtLayerId.mold).getD 0 0 ∧
    0 ≤ (getMapGrid (applyStampUV (fun q => q)
        (mkDirtSystem 1 [⟨DirtLayerId.mold, 1, 1⟩] [1])
        0 0 1 1) DirtLayerId.mold).getD 0 0 :=
  stamp_monotonic_decrease (fun q => q)
    (mkDirtSystem 1 [⟨DirtLayerId.mold, 1, 1⟩] [1]) 0 0 1 1
    (ReachableDirt.base 1 [⟨DirtLayerId.mold, 1, 1⟩] [1])
    (by decide)
    (by
      intro l hl
      have hlay : (mkDirtSystem 1 [⟨DirtLayerId.mold, 1, 1⟩] [1]).layers =
          [⟨DirtLayerId.mold, 1, 1⟩] := rfl
      rw [hlay, List.mem_singleton] at hl
      rw [hl]
      decide)
    DirtLayerId.mold 0

theorem countP_range_getD (l : List ℕ) (p : ℕ → Bool) :
    (List.range l.length).countP (fun i => p (l.getD i 0)) = l.countP p := by
  induction l with
  | nil => rfl
  | cons a t ih =>
    rw [List.length_cons, List.range_succ_eq_map, List.countP_cons,
      List.countP_map]
    have hcomp : ((fun i => p ((a :: t).getD i 0)) ∘ (· + 1)) =
        (fun i => p (t.getD i 0)) := by
      funext i
      rfl
    rw [hcomp, ih, List.countP_cons]
    rfl

/-- Masks produced by the Silhouette Mask Builder are binary, satisfying
the hypothesis of the union-ratio theorem below. -/
theorem buildMask_binary (alphas : List ℕ) (alphaThreshold : ℚ) :
    ∀ m ∈ buildMask alphas alphaThreshold, m ≤ 1 := by
  intro m hm
  unfold buildMask at hm
  rw [List.mem_map] at hm
  obtain ⟨a, _, ha⟩ := hm
  rw [← ha]
  split
  · exact le_rfl
  · exact Nat.zero_le 1

/-- C4.  Union dirty ratio: over a binary silhouette mask (as the mask
builder produces), `getUnionDirtyRatio eps` returns 0 when there are no
inside-cells, otherwise the fraction of inside-cells for which any layer's
coverage exceeds `eps`; the result always lies in `[0, 1]`. -/
theorem union_dirty_ratio_spec (s : DirtState) (eps : ℚ)
    (hm : ∀ m ∈ s.mask, m ≤ 1) :
    (insideCount s.mask = 0 → getUnionDirtyRatio s eps = 0) ∧
    (insideCount s.mask ≠ 0 →
      getUnionDirtyRatio s eps =
        (specUnionDirtyCount s eps : ℚ) / (insideCount s.mask : ℚ)) ∧
    0 ≤ getUnionDirtyRatio s eps ∧ getUnionDirtyRatio s eps ≤ 1 := by
  have hbinary : ∀ i, i < s.mask.length →
      (s.mask.getD i 0 != 0) = decide (s.mask.getD i 0 = 1) := by
    intro i hi
    have hv : s.mask.getD i 0 ≤ 1 := by
      rw [List.getD_eq_getElem _ _ hi]
      exact hm _ (List.getElem_mem hi)
    rcases Nat.le_one_iff_eq_zero_or_eq_one.mp hv with h0 | h1
    · rw [h0]
      rfl
    · rw [h1]
      rfl
  have hpredeq : ∀ i ∈ List.range s.mask.length,
      (((s.mask.getD i 0 != 0) &&
        (decide (eps < (getMapGrid s DirtLayerId.mold).getD i 0) ||
         decide (eps < (getMapGrid s DirtLayerId.grease).getD i 0))) = true)
      ↔ (((decide (s.mask.getD i 0 = 1) &&
         decide (eps < (getMapGrid s DirtLayerId.mold).getD i 0 ∨
                 eps < (getMapGrid s DirtLayerId.grease).getD i 0)) = true)) := by
    intro i hi
    rw [List.mem_range] at hi
    rw [hbinary i hi, Bool.decide_or]
  have hdirty :
      (List.range s.mask.length).countP (fun i =>
        (s.mask.getD i 0 != 0) &&
        (decide (eps < (getMapGrid s DirtLayerId.mold).getD i 0) ||
         decide (eps < (getMapGrid s DirtLayerId.grease).getD i 0)))
      = specUnionDirtyCount s eps :=
    List.countP_congr hpredeq
  have hbound :
      (List.range s.mask.length).countP (fun i =>
        (s.mask.getD i 0 != 0) &&
        (decide (eps < (getMapGrid s DirtLayerId.mold).getD i 0) ||
         decide (eps < (getMapGrid s DirtLayerId.grease).getD i 0)))
      ≤ insideCount s.mask := by
    have h1 : (List.range s.mask.length).countP (fun i =>
        (s.mask.getD i 0 != 0) &&
        (decide (eps < (getMapGrid s DirtLayerId.mold).getD i 0) ||
         decide (eps < (getMapGrid s DirtLayerId.grease).getD i 0)))
        ≤ (List.range s.mask.length).countP
          (fun i => s.mask.getD i 0 != 0) := by
      refine List.countP_mono_left ?_
      intro i _ hp
      exact (Bool.and_eq_true _ _ |>.mp hp).1
    have h2 : (List.range s.mask.length).countP
        (fun i => s.mask.getD i 0 != 0) = insideCount s.mask := by
      rw [countP_range_getD s.mask (fun m => m != 0)]
      refine List.countP_congr ?_
      intro m hmem
      rcases Nat.le_one_iff_eq_zero_or_eq_one.mp (hm m hmem) with h0 | h1
      · rw [h0]
        exact Iff.rfl
      · rw [h1]
        exact Iff.rfl
    exact h2 ▸ h1
  unfold getUnionDirtyRatio
  by_cases hzero : insideCount s.mask = 0
  · rw [if_pos hzero]
    refine ⟨fun _ => rfl, fun hne => absurd hzero hne, le_rfl, by norm_num⟩
  · rw [if_neg hzero]
    dsimp only
    have hpos : (0 : ℚ) < (insideCount s.mask : ℚ) := by
      exact_mod_cast Nat.pos_of_ne_zero hzero
    refine ⟨fun hc => absurd hc hzero, fun _ => by rw [hdirty], ?_, ?_⟩
    · exact div_nonneg (Nat.cast_nonneg _) (le_of_lt hpos)
    · rw [div_le_one hpos]
      exact_mod_cast hbound

theorem union_dirty_ratio_spec_witness :
    0 ≤ getUnionDirtyRatio ⟨1, [], [1], some [1], some [0]⟩ 0 ∧
    getUnionDirtyRatio ⟨1, [], [1], some [1], some [0]⟩ 0 ≤ 1 :=
  (union_dirty_ratio_spec ⟨1, [], [1], some [1], some [0]⟩ 0
    (by decide)).2.2

theorem moveLoop_axis (S L dt dX dY : ℚ) (hS : 1 ≤ S) (hL : 0 < L) :
    ∀ (fuel : ℕ) (tr : ℚ), 0 ≤ tr → L - tr < (fuel : ℚ) * S →
    (moveLoop S L dt 0 0 L 0 dX dY fuel 0 tr).1 =
      (List.range (⌊(L - tr) / S⌋).toNat).map (fun k =>
        ⟨tr + ((k : ℚ) + 1) * S, 0, S, dt * (S / max L S), dX, dY⟩) := by
  have hS0 : (0 : ℚ) < S := lt_of_lt_of_le one_pos hS
  intro fuel
  induction fuel with
  | zero =>
    intro tr _ hfuel
    rw [Nat.cast_zero, zero_mul, sub_neg] at hfuel
    have hneg : ⌊(L - tr) / S⌋ ≤ 0 := by
      apply Int.floor_nonpos
      apply div_nonpos_of_nonpos_of_nonneg (by linarith) (le_of_lt hS0)
    rw [Int.toNat_of_nonpos hneg]
    rfl
  | succ fuel ih =>
    intro tr htr hfuel
    rw [moveLoop]
    by_cases hcond : S ≤ 0 + (L - tr) ∧ 0 < L
    · rw [if_pos hcond]
      dsimp only
      have hstep : S ≤ L - tr := by linarith [hcond.1]
      have htr2 : tr + (S - 0) ≤ L := by linarith
      have hratio : max 0 (min 1 ((tr + (S - 0)) / L)) = (tr + (S - 0)) / L := by
        rw [min_eq_right (by rw [div_le_one hL]; linarith),
          max_eq_right (div_nonneg (by linarith) (le_of_lt hL))]
      have hsx : 0 + (L - 0) * ((tr + (S - 0)) / L) = tr + S := by
        field_simp
      have hfloor1 : 1 ≤ ⌊(L - tr) / S⌋ := by
        rw [Int.le_floor, Int.cast_one]
        exact (one_le_div hS0).mpr hstep
      have hfloorsub : ⌊(L - (tr + S)) / S⌋ = ⌊(L - tr) / S⌋ - 1 := by
        have harg : (L - (tr + S)) / S = (L - tr) / S - 1 := by
          field_simp
          ring
        rw [harg]
        exact_mod_cast Int.floor_sub_int ((L - tr) / S) 1
      have hN : (⌊(L - tr) / S⌋).toNat = (⌊(L - (tr + S)) / S⌋).toNat + 1 := by
        omega
      have hrest := ih (tr + S) (by linarith) (by
        push_cast at hfuel
        nlinarith)
      have hrest' : (moveLoop S L dt 0 0 L 0 dX dY fuel 0 (tr + (S - 0))).1 =
          (List.range (⌊(L - (tr + S)) / S⌋).toNat).map (fun k =>
            ⟨(tr + S) + ((k : ℚ) + 1) * S, 0, S, dt * (S / max L S),
              dX, dY⟩) := by
        rw [show tr + (S - 0) = tr + S by ring]
        exact hrest
      rw [hrest', hratio, hN, List.range_succ_eq_map, List.map_cons,
        List.map_map]
      congr 1
      · rw [hsx]
        simp only [StampCall.mk.injEq]
        norm_num
      · refine List.map_congr_left ?_
        intro k _
        simp only [Function.comp_apply, StampCall.mk.injEq]
        norm_num
        ring
    · rw [if_neg hcond]
      have hlt : L - tr < S := by
        rcases not_and_or.mp hcond with hc | hc
        · linarith [not_le.mp hc]
        · exact absurd hL hc
      have hneg : ⌊(L - tr) / S⌋ ≤ 0 := by
        have h1 : (L - tr) / S < 1 := by
          rw [div_lt_one hS0]
          exact hlt
        have h2 : ((⌊(L - tr) / S⌋ : ℚ)) < 1 :=
          lt_of_le_of_lt (Int.floor_le _) h1
        have h3 : ⌊(L - tr) / S⌋ < 1 := by exact_mod_cast h2
        omega
      rw [Int.toNat_of_nonpos hneg]
      rfl

theorem handleMove_axis (sqrtQ : ℚ → ℚ) (tool : ToolConfig)
    (s1 : StrokeState) (L t1 : ℚ) (ha : s1.active = true)
    (hx : s1.lastX = 0) (hy : s1.lastY = 0) (hr : s1.residual = 0)
    (hS : 1 ≤ tool.spacing) (hL : 0 < L)
    (hsq : sqrtQ ((L - 0) * (L - 0) + (0 - 0) * (0 - 0)) = L) :
    (handleMove tool sqrtQ s1 L 0 t1).2.map (fun p => (p.x, p.y)) =
      (List.range (⌊L / tool.spacing⌋).toNat).map
        (fun k : ℕ => (((k : ℚ) + 1) * tool.spacing, (0 : ℚ))) := by
  have hS0 : (0 : ℚ) ≤ tool.spacing := le_trans zero_le_one hS
  unfold handleMove
  rw [if_neg (by simp [ha])]
  dsimp only
  rw [hx, hy, hr, hsq, max_eq_right hS, min_eq_left hS0]
  rw [if_neg (fun h => absurd h.1 (ne_of_gt hL))]
  dsimp only
  have hb : L - 0 < (((⌈(0 : ℚ) + L⌉).toNat + 2 : ℕ) : ℚ) * tool.spacing := by
    have h1 : L ≤ ((⌈(0 : ℚ) + L⌉ : ℤ) : ℚ) := by
      rw [zero_add]
      exact Int.le_ceil L
    have h2 : ((⌈(0 : ℚ) + L⌉ : ℤ) : ℚ) ≤ ((⌈(0 : ℚ) + L⌉.toNat : ℕ) : ℚ) := by
      exact_mod_cast Int.self_le_toNat _
    have h3 : (0 : ℚ) ≤ ((⌈(0 : ℚ) + L⌉.toNat : ℕ) : ℚ) := Nat.cast_nonneg _
    push_cast
    push_cast at h2
    nlinarith
  have key := moveLoop_axis tool.spacing L (max 0 (t1 - s1.lastT))
    (if 0 < L then (L - 0) / L else s1.lastDirX)
    (if 0 < L then (0 - 0) / L else s1.lastDirY) hS hL
    ((⌈(0 : ℚ) + L⌉).toNat + 2) 0 le_rfl hb
  rw [key, List.map_map]
  rw [show L - 0 = L from sub_zero L]
  refine List.map_congr_left ?_
  intro k _
  simp only [Function.comp_apply]
  norm_num

/-- C5.  Spacing regularity: after `handleDown` at the origin, a single
`handleMove` tracing a straight line of length `L` along the x-axis with
configured spacing `S ≥ 1` places exactly `⌊L/S⌋` interior stamps (within
the claim's `⌊L/S⌋ ± 1` tolerance), at positions `S, 2S, …` — consecutive
interior stamps exactly `S` apart along the path. -/
theorem spacing_regularity (sqrtQ : ℚ → ℚ) (st : StrokeState)
    (tool : ToolConfig) (L t0 t1 : ℚ) (hact : st.active = true)
    (hS : 1 ≤ tool.spacing) (hL : 0 < L)
    (hsq : sqrtQ ((L - 0) * (L - 0) + (0 - 0) * (0 - 0)) = L) :
    (handleMove tool sqrtQ (handleDown st 0 0 t0).1 L 0 t1).2.map
      (fun p => (p.x, p.y)) =
    (List.range (⌊L / tool.spacing⌋).toNat).map
      (fun k : ℕ => (((k : ℚ) + 1) * tool.spacing, (0 : ℚ))) ∧
    (handleMove tool sqrtQ (handleDown st 0 0 t0).1 L 0 t1).2.length =
      (⌊L / tool.spacing⌋).toNat := by
  have hpos : (handleMove tool sqrtQ (handleDown st 0 0 t0).1 L 0 t1).2.map
      (fun p => (p.x, p.y)) =
      (List.range (⌊L / tool.spacing⌋).toNat).map
        (fun k : ℕ => (((k : ℚ) + 1) * tool.spacing, (0 : ℚ))) := by
    refine handleMove_axis sqrtQ tool _ L t1 ?_ ?_ ?_ ?_ hS hL hsq
    · simp [handleDown, hact]
    · simp [handleDown]
    · simp [handleDown]
    · simp [handleDown]
  refine ⟨hpos, ?_⟩
  have hlen := congrArg List.length hpos
  simpa using hlen

theorem spacing_regularity_witness :
    (handleMove ⟨1, 0, 1, false⟩ (fun _ => 3)
      (handleDown ⟨true, 0, 0, 0, 0, false, 0, -1⟩ 0 0 0).1 3 0 1).2.length =
    (⌊(3 : ℚ) / (1 : ℚ)⌋).toNat :=
  (spacing_regularity (fun _ => 3) ⟨true, 0, 0, 0, 0, false, 0, -1⟩
    ⟨1, 0, 1, false⟩ 3 0 1 rfl le_rfl (by norm_num) rfl).2
